import Mathlib

/-!
Shallow embedding of parts of the `samply` profiler repository
(symbol identity derivation for ELF/PE/PDB, symbol-map construction,
dyld-cache fallback, CoreCLR JIT address allocation, ETW property
parsing, and `samply record` command-line splitting), together with
theorems settling the specification claims about them.
Machine strings are modelled as `List Char`, byte buffers as `List Nat`
(each entry a byte value), and maps as functions `Nat → Option α`.
-/

namespace Samply

/-- Uppercase hex digit for a value below 16, as Rust's `{:X}` renders it. -/
def hexDigitUpper (n : Nat) : Char :=
  if n < 10 then Char.ofNat (48 + n) else Char.ofNat (55 + n)

/-- Two uppercase hex digits of one byte. -/
def byteToHexUpper (b : Nat) : List Char :=
  [hexDigitUpper (b / 16), hexDigitUpper (b % 16)]

/-- Uppercase hex rendering of a byte sequence, two digits per byte: this is
what `format!("{:X}", uuid.to_simple())` produces for a 16-byte UUID. -/
def bytesToHexUpper (l : List Nat) : List Char :=
  l.foldr (fun b acc => byteToHexUpper b ++ acc) []

/-- Lowercase minimal hex rendering of a number, as Rust's `{:x}` produces. -/
def lowerHexNat (n : Nat) : List Char :=
  Nat.toDigits 16 n

/-- Reverse the slice `[a, b)` of a list in place, leaving the rest unchanged:
models Rust's `data[a..b].reverse()`. -/
def reverseSlice (l : List Nat) (a b : Nat) : List Nat :=
  l.take a ++ ((l.drop a).take (b - a)).reverse ++ l.drop b

/-- The endianness byte flip shared by `create_elf_id` (src/lib/src/elf.rs)
and `pe_signature_to_uuid` (src/lib/src/pdb/mod.rs): reverse bytes `0..4`
(uuid field 1), then `4..6` (field 2), then `6..8` (field 3). -/
def flipUuidFields (l : List Nat) : List Nat :=
  reverseSlice (reverseSlice (reverseSlice l 0 4) 4 6) 6 8

/-- `create_elf_id` from src/lib/src/elf.rs: copy at most 16 identifier bytes
into a zero-initialized 16-byte buffer, and apply the UUID field flip when
the ELF file is little-endian. -/
def create_elf_id (identifier : List Nat) (littleEndian : Bool) : List Nat :=
  let data := identifier.take 16 ++ List.replicate (16 - min identifier.length 16) 0
  if littleEndian then flipUuidFields data else data

/-- The `.text` fallback hash in `get_elf_id` (src/lib/src/elf.rs): XOR byte
`i` of the first `min(len, 4096)` section bytes into slot `i % 16` of a
zero-initialized 16-byte accumulator. -/
def xorTextHash (sectionData : List Nat) : List Nat :=
  (List.range (min sectionData.length 4096)).foldl
    (fun hash i => hash.set (i % 16) ((hash.getD (i % 16) 0) ^^^ (sectionData.getD i 0)))
    (List.replicate 16 0)

/-- `get_elf_id` from src/lib/src/elf.rs, with the ELF file abstracted to its
build-id note (if present), its `.text` section data (if present), and its
endianness. -/
def get_elf_id (buildId : Option (List Nat)) (textSection : Option (List Nat))
    (littleEndian : Bool) : Option (List Nat) :=
  match buildId with
  | some identifier => some (create_elf_id identifier littleEndian)
  | none =>
    match textSection with
    | some sectionData => some (create_elf_id (xorTextHash sectionData) littleEndian)
    | none => none

/-- `format!("{:X}0", elf_id.to_simple())` from `get_symbolication_result`
in src/lib/src/elf.rs: uppercase hex of the 16 id bytes plus a trailing
`0` nibble. -/
def elfDebugIdString (elfId : List Nat) : List Char :=
  bytesToHexUpper elfId ++ ['0']

end Samply

namespace Samply

/-- Claim-side restatement of the ELF debug-id derivation, following the
specification's words: take the first 16 bytes of the build id, zero-padded
on the right if shorter; reverse bytes 0..4, 4..6 and 6..8 iff the ELF is
little-endian; render as uppercase hex; append a trailing `0` nibble. -/
def claimElfDebugId (buildId : List Nat) (littleEndian : Bool) : List Char :=
  let padded := (buildId ++ List.replicate 16 0).take 16
  let flipped := if littleEndian then flipUuidFields padded else padded
  bytesToHexUpper flipped ++ ['0']

theorem take_append_replicate (l : List Nat) :
    (l ++ List.replicate 16 0).take 16 = l.take 16 ++ List.replicate (16 - min l.length 16) 0 := by
  rw [List.take_append_eq_append_take, List.take_replicate]
  congr 2
  omega

/-- `pe_signature_to_uuid` from src/lib/src/pdb/mod.rs: apply the UUID field
flip (the PE file is always little-endian) to the 16 CodeView signature
bytes. -/
def pe_signature_to_uuid (sig : List Nat) : List Nat :=
  flipUuidFields sig

/-- The `expected_breakpad_id` computed by the exports-only fallback in
`get_symbolication_result_via_binary` (src/lib/src/pdb/mod.rs):
`format!("{:X}{:x}", signature.to_simple(), info.age + 1)` — note the `+ 1`
applied to the CodeView record's age. -/
def peExpectedBreakpadId (sig : List Nat) (age : Nat) : List Char :=
  bytesToHexUpper (pe_signature_to_uuid sig) ++ lowerHexNat (age + 1)

/-- The raw on-disk byte layout of the CodeView signature GUID
`{11223344-5566-7788-99AA-BBCCDDEEFF00}` (first three fields stored
little-endian in the PE file). -/
def exampleGuidBytes : List Nat :=
  [0x44, 0x33, 0x22, 0x11, 0x66, 0x55, 0x88, 0x77,
   0x99, 0xAA, 0xBB, 0xCC, 0xDD, 0xEE, 0xFF, 0x00]

/-- The build-id bytes of the specification's ELF example. -/
def exampleBuildId : List Nat :=
  [0xa0, 0xb1, 0xc2, 0xd3, 0xe4, 0xf5, 0x06, 0x17,
   0x28, 0x39, 0x4a, 0x5b, 0x6c, 0x7d, 0x8e, 0x9f]

end Samply

namespace Samply

/-- C7: the endianness byte flip shared by ELF build-ids and PE signatures —
reversing bytes 0..4, then 4..6, then 6..8 — is an involution on every
16-byte input. -/
theorem flip_uuid_fields_involutive (l : List Nat) (h : l.length = 16) :
    flipUuidFields (flipUuidFields l) = l := by
  rcases l with _ | ⟨b0, _ | ⟨b1, _ | ⟨b2, _ | ⟨b3, _ | ⟨b4, _ | ⟨b5, _ | ⟨b6, _ | ⟨b7, rest⟩⟩⟩⟩⟩⟩⟩⟩ <;>
    simp [flipUuidFields, reverseSlice]

theorem flip_uuid_fields_involutive_witness :
    flipUuidFields (flipUuidFields [0, 1, 2, 3, 4, 5, 6, 7, 8, 9, 10, 11, 12, 13, 14, 15]) =
      [0, 1, 2, 3, 4, 5, 6, 7, 8, 9, 10, 11, 12, 13, 14, 15] :=
  flip_uuid_fields_involutive _ (by decide)

/-- C1 counterexample: on the specification's example build-id bytes, the
little-endian ELF debug-id string computed by the code is not the string
claimed by the specification. -/
theorem elf_debug_id_example_ne_claimed :
    elfDebugIdString (create_elf_id exampleBuildId true) ≠
      "D3C2B1A0F5E4172806394A5B6C7D8E9F0".data := by
  decide

/-- C1 (amended): the ELF debug-id string equals the claimed derivation —
first 16 build-id bytes zero-padded on the right, UUID fields byte-reversed
iff little-endian, uppercase hex, trailing `0` nibble — and on the example
build-id bytes of the specification the little-endian result is
"D3C2B1A0F5E4170628394A5B6C7D8E9F0". -/
theorem elf_debug_id_correct :
    (∀ (buildId : List Nat) (le : Bool),
      elfDebugIdString (create_elf_id buildId le) = claimElfDebugId buildId le) ∧
    elfDebugIdString (create_elf_id exampleBuildId true) =
      "D3C2B1A0F5E4170628394A5B6C7D8E9F0".data := by
  constructor
  · intro buildId le
    unfold claimElfDebugId elfDebugIdString create_elf_id
    rw [take_append_replicate]
  · decide

/-- C2 counterexample: on the raw signature bytes of GUID
`{11223344-5566-7788-99AA-BBCCDDEEFF00}` with CodeView age 2, the expected
breakpad id computed by the exports-only fallback is
"112233445566778899AABBCCDDEEFF003" (the code appends `age + 1`), not the
claimed "112233445566778899AABBCCDDEEFF002". -/
theorem pe_expected_breakpad_id_example_ne_claimed :
    peExpectedBreakpadId exampleGuidBytes 2 = "112233445566778899AABBCCDDEEFF003".data ∧
    peExpectedBreakpadId exampleGuidBytes 2 ≠ "112233445566778899AABBCCDDEEFF002".data := by
  constructor
  · decide
  · decide

/-- C2 (amended): the expected breakpad id compared by the exports-only
fallback equals uppercase hex of the signature with its first three fields
byte-reversed, followed by lowercase hex of `age + 1`; in particular the
example GUID with CodeView age 1 yields "112233445566778899AABBCCDDEEFF002". -/
theorem pe_expected_breakpad_id_correct :
    (∀ (sig : List Nat) (age : Nat),
      peExpectedBreakpadId sig age =
        bytesToHexUpper (flipUuidFields sig) ++ lowerHexNat (age + 1)) ∧
    peExpectedBreakpadId exampleGuidBytes 1 = "112233445566778899AABBCCDDEEFF002".data := by
  exact ⟨fun _ _ => rfl, by decide⟩

end Samply

namespace Samply

/-- Errors of the symbolication library (src/lib/src/error.rs), restricted to
the variants the embedded functions produce. -/
inductive GetSymbolsError where
  | invalidInputError
  | unmatchedBreakpadId (computed requested : List Char)
deriving DecidableEq

/-- `HashMap` insertion: a later binding for the same key overwrites an
earlier one (the semantics of collecting an iterator into a `HashMap`). -/
def insertOverwrite {α : Type} (m : Nat → Option α) (k : Nat) (v : α) : Nat → Option α :=
  fun x => if x = k then some v else m x

/-- `hashmap.entry(k).or_insert_with(|| v)`: insert only when the key is
absent, leaving an existing binding untouched. -/
def insertIfAbsent {α : Type} (m : Nat → Option α) (k : Nat) (v : α) : Nat → Option α :=
  match m k with
  | some _ => m
  | none => insertOverwrite m k v

/-- The first phase of `get_symbolication_result` in src/lib/src/pdb/mod.rs:
collect the public function symbols' `(rva, name)` pairs into a hashmap. -/
def buildPublicMap {α : Type} (publics : List (Nat × α)) : Nat → Option α :=
  publics.foldl (fun m p => insertOverwrite m p.1 p.2) (fun _ => none)

/-- Both phases of the RVA→name map construction in
`get_symbolication_result` (src/lib/src/pdb/mod.rs): public symbols first,
then module procedure symbols via insert-if-absent. -/
def buildSymbolMap {α : Type} (publics procs : List (Nat × α)) : Nat → Option α :=
  procs.foldl (fun m p => insertIfAbsent m p.1 p.2) (buildPublicMap publics)

/-- The PDB id string from `get_symbolication_result`
(src/lib/src/pdb/mod.rs): `format!("{}{:x}", format!("{:X}", guid.to_simple()), age)`,
i.e. uppercase GUID hex followed by lowercase age hex. -/
def pdbIdString (guid : List Nat) (age : Nat) : List Char :=
  bytesToHexUpper guid ++ lowerHexNat age

/-- `get_symbolication_result` for PDB files (src/lib/src/pdb/mod.rs), with
the PDB abstracted to its information-stream GUID and age, its public
function symbols and its module procedure symbols (each already resolved
to `(rva, name)` pairs). The symbol map is the returned result `R`. -/
def pdb_get_symbolication_result (guid : List Nat) (age : Nat) (breakpadId : List Char)
    (publics procs : List (Nat × List Char)) :
    Except GetSymbolsError (Nat → Option (List Char)) :=
  let pdbId := pdbIdString guid age
  if pdbId ≠ breakpadId then
    .error (.unmatchedBreakpadId pdbId breakpadId)
  else
    .ok (buildSymbolMap publics procs)

/-- `get_symbolication_result` for ELF files (src/lib/src/elf.rs), with the
file abstracted to its build-id note, `.text` section data and endianness,
and `object_to_map`'s output abstracted as `map`. -/
def elf_get_symbolication_result (buildId textSection : Option (List Nat))
    (littleEndian : Bool) (breakpadId : List Char) (map : Nat → Option (List Char)) :
    Except GetSymbolsError (Nat → Option (List Char)) :=
  match get_elf_id buildId textSection littleEndian with
  | none => .error .invalidInputError
  | some elfId =>
    let elfIdString := elfDebugIdString elfId
    if elfIdString ≠ breakpadId then
      .error (.unmatchedBreakpadId elfIdString breakpadId)
    else
      .ok map

theorem foldl_insertIfAbsent_preserves {α : Type} (procs : List (Nat × α))
    (m : Nat → Option α) (rva : Nat) (name : α) (h : m rva = some name) :
    (procs.foldl (fun m p => insertIfAbsent m p.1 p.2) m) rva = some name := by
  induction procs generalizing m with
  | nil => exact h
  | cons p ps ih =>
    apply ih
    show insertIfAbsent m p.1 p.2 rva = some name
    unfold insertIfAbsent insertOverwrite
    cases hm : m p.1 with
    | some v =>
      exact h
    | none =>
      show (if rva = p.1 then some p.2 else m rva) = some name
      by_cases hr : rva = p.1
      · rw [hr] at h
        rw [h] at hm
        simp at hm
      · simpa [hr] using h

/-- C3: whenever a public function symbol and a module procedure symbol
resolve to the same RVA, the symbol map returned by the PDB
`get_symbolication_result` assigns the RVA the public symbol's name:
bindings present after the public phase survive the procedure phase. -/
theorem public_symbols_win (guid : List Nat) (age : Nat) (breakpadId : List Char)
    (publics procs : List (Nat × List Char)) (m : Nat → Option (List Char))
    (rva : Nat) (name : List Char)
    (hok : pdb_get_symbolication_result guid age breakpadId publics procs = .ok m)
    (hpub : buildPublicMap publics rva = some name) :
    m rva = some name := by
  unfold pdb_get_symbolication_result at hok
  by_cases hid : pdbIdString guid age ≠ breakpadId
  · simp [hid] at hok
  · simp [hid] at hok
    rw [← hok]
    exact foldl_insertIfAbsent_preserves procs _ rva name hpub

theorem public_symbols_win_witness :
    buildSymbolMap [(0x1000, "void __cdecl foo(int)".data)] [(0x1000, "foo".data)] 0x1000 =
      some "void __cdecl foo(int)".data :=
  public_symbols_win (List.replicate 16 0) 1
    (pdbIdString (List.replicate 16 0) 1)
    [(0x1000, "void __cdecl foo(int)".data)] [(0x1000, "foo".data)]
    (buildSymbolMap [(0x1000, "void __cdecl foo(int)".data)] [(0x1000, "foo".data)])
    0x1000 "void __cdecl foo(int)".data
    (by simp [pdb_get_symbolication_result])
    (by decide)

/-- C4: identity is verified at construction. The PDB path computes
uppercase GUID hex plus lowercase age hex and returns
`UnmatchedBreakpadId(computed, requested)` without building a symbol map
whenever this differs from the query's breakpad id, and builds the map
exactly when they agree; the ELF path behaves the same with its computed
id string. -/
theorem identity_verified_at_construction (guid : List Nat) (age : Nat)
    (breakpadId : List Char) (publics procs : List (Nat × List Char))
    (buildId textSection : Option (List Nat)) (littleEndian : Bool)
    (map : Nat → Option (List Char)) :
    (pdbIdString guid age ≠ breakpadId →
      pdb_get_symbolication_result guid age breakpadId publics procs =
        .error (.unmatchedBreakpadId (pdbIdString guid age) breakpadId)) ∧
    (pdbIdString guid age = breakpadId →
      pdb_get_symbolication_result guid age breakpadId publics procs =
        .ok (buildSymbolMap publics procs)) ∧
    (∀ elfId, get_elf_id buildId textSection littleEndian = some elfId →
      elfDebugIdString elfId ≠ breakpadId →
      elf_get_symbolication_result buildId textSection littleEndian breakpadId map =
        .error (.unmatchedBreakpadId (elfDebugIdString elfId) breakpadId)) ∧
    (∀ m, elf_get_symbolication_result buildId textSection littleEndian breakpadId map = .ok m →
      ∃ elfId, get_elf_id buildId textSection littleEndian = some elfId ∧
        elfDebugIdString elfId = breakpadId ∧ m = map) := by
  refine ⟨fun hne => ?_, fun heq => ?_, fun elfId hid hne => ?_, fun m hm => ?_⟩
  · simp [pdb_get_symbolication_result, hne]
  · simp [pdb_get_symbolication_result, heq]
  · simp [elf_get_symbolication_result, hid, hne]
  · unfold elf_get_symbolication_result at hm
    cases hid : get_elf_id buildId textSection littleEndian with
    | none => rw [hid] at hm; exact absurd hm (by simp)
    | some elfId =>
      rw [hid] at hm
      by_cases hne : elfDebugIdString elfId ≠ breakpadId
      · simp [hne] at hm
      · simp [hne] at hm
        exact ⟨elfId, rfl, not_not.mp hne, hm.symm⟩

theorem identity_verified_at_construction_witness :
    pdb_get_symbolication_result (List.replicate 16 0) 0 ['X'] [] [] =
      .error (.unmatchedBreakpadId (pdbIdString (List.replicate 16 0) 0) ['X']) :=
  (identity_verified_at_construction (List.replicate 16 0) 0 ['X'] [] []
    none none false (fun _ => none)).1 (by decide)

end Samply

namespace Samply

/-- The `.text` XOR hash restricted to the first `n` section bytes. -/
def xorFoldUpTo (sectionData : List Nat) (n : Nat) : List Nat :=
  (List.range n).foldl
    (fun hash i => hash.set (i % 16) ((hash.getD (i % 16) 0) ^^^ (sectionData.getD i 0)))
    (List.replicate 16 0)

/-- Claim-side characterization of accumulator slot `k`, restricted to the
first `n` section bytes: XOR of the bytes whose index is congruent to `k`
modulo 16. -/
def claimXorUpTo (sectionData : List Nat) (n k : Nat) : Nat :=
  ((List.range n).filter (fun i => i % 16 = k)).foldl
    (fun acc i => acc ^^^ sectionData.getD i 0) 0

/-- Claim-side value of accumulator slot `k` of the `.text` fallback hash:
XOR of bytes `i` of the first `min(text_len, 4096)` section bytes with
`i % 16 = k`. -/
def claimTextHashAt (sectionData : List Nat) (k : Nat) : Nat :=
  claimXorUpTo sectionData (min sectionData.length 4096) k

theorem xorFoldUpTo_succ (sectionData : List Nat) (n : Nat) :
    xorFoldUpTo sectionData (n + 1) =
      (xorFoldUpTo sectionData n).set (n % 16)
        (((xorFoldUpTo sectionData n).getD (n % 16) 0) ^^^ (sectionData.getD n 0)) := by
  unfold xorFoldUpTo
  rw [List.range_succ, List.foldl_append]
  rfl

theorem xorFoldUpTo_length (sectionData : List Nat) (n : Nat) :
    (xorFoldUpTo sectionData n).length = 16 := by
  induction n with
  | zero => rfl
  | succ n ih => rw [xorFoldUpTo_succ, List.length_set]; exact ih

theorem xorFoldUpTo_getD (sectionData : List Nat) (n k : Nat) (hk : k < 16) :
    (xorFoldUpTo sectionData n).getD k 0 = claimXorUpTo sectionData n k := by
  induction n with
  | zero =>
    show (List.replicate 16 0).getD k 0 = 0
    rw [List.getD_eq_getElem?_getD, List.getElem?_replicate]
    simp [hk]
  | succ n ih =>
    rw [xorFoldUpTo_succ]
    by_cases hmod : n % 16 = k
    · rw [List.getD_eq_getElem?_getD, hmod,
        List.getElem?_set_eq_of_lt _ (by rw [xorFoldUpTo_length]; exact hk),
        Option.getD_some, ih]
      unfold claimXorUpTo
      rw [List.range_succ, List.filter_append, List.foldl_append]
      simp [hmod]
    · rw [List.getD_eq_getElem?_getD, List.getElem?_set_ne hmod,
        ← List.getD_eq_getElem?_getD, ih]
      unfold claimXorUpTo
      rw [List.range_succ, List.filter_append, List.foldl_append]
      simp [hmod]

/-- C6: for an ELF file with no build-id note but with a `.text` section,
the 16-byte identifier is the XOR accumulator of the first
`min(text_len, 4096)` section bytes (byte `i` XORed into slot `i % 16` of a
zero-initialized accumulator) passed through the same little-endian field
reversal as build-ids; with neither a build id nor a `.text` section,
`get_elf_id` returns `None`. -/
theorem elf_text_fallback_hash (sectionData : List Nat) (littleEndian : Bool)
    (k : Nat) (hk : k < 16) :
    get_elf_id none (some sectionData) littleEndian =
      some (create_elf_id (xorTextHash sectionData) littleEndian) ∧
    (xorTextHash sectionData).getD k 0 = claimTextHashAt sectionData k ∧
    get_elf_id none none littleEndian = none :=
  ⟨rfl, xorFoldUpTo_getD sectionData (min sectionData.length 4096) k hk, rfl⟩

theorem elf_text_fallback_hash_witness :
    get_elf_id none (some [7, 9]) true =
      some (create_elf_id (xorTextHash [7, 9]) true) ∧
    (xorTextHash [7, 9]).getD 1 0 = claimTextHashAt [7, 9] 1 ∧
    get_elf_id none none true = none :=
  elf_text_fallback_hash [7, 9] true 1 (by decide)

end Samply

namespace Samply

/-- The error variants of `samply_symbols::Error` relevant to
`SymbolManager::library_info_for_binary_at_path`
(src/wholesym/src/symbol_manager.rs): the open-file helper error matched
by the dyld-cache guard, and any other error, abstracted by a code. -/
inductive WholesymError where
  | helperErrorDuringOpenFile
  | otherError (code : Nat)
deriving DecidableEq

/-- `path.starts_with("/usr/") || path.starts_with("/System/")` with the
path modelled as its component list (`"/"` is the root component). -/
def mightBeInDyldSharedCache (pathComponents : List String) : Bool :=
  List.isPrefixOf ["/", "usr"] pathComponents ||
    List.isPrefixOf ["/", "System"] pathComponents

/-- `SymbolManager::library_info_for_binary_at_path` from
src/wholesym/src/symbol_manager.rs, with the local open
(`load_binary_at_location`) and the dyld-shared-cache lookup
(`load_binary_for_dyld_cache_image`) abstracted to their results, and
`Binary::library_info` abstracted as `libraryInfo`. -/
def library_info_for_binary_at_path {β γ : Type} (pathComponents : List String)
    (binaryRes dyldRes : Except WholesymError β) (libraryInfo : β → γ) :
    Except WholesymError γ :=
  match binaryRes with
  | .ok binary => .ok (libraryInfo binary)
  | .error .helperErrorDuringOpenFile =>
    if mightBeInDyldSharedCache pathComponents then
      match dyldRes with
      | .ok binary => .ok (libraryInfo binary)
      | .error e => .error e
    else .error .helperErrorDuringOpenFile
  | .error e => .error e

/-- C5: the dyld-shared-cache lookup is attempted iff the path starts with
`/usr/` or `/System/` and the local open failed with
`HelperErrorDuringOpenFile`; any other local-open error is returned
unchanged; a successfully opened local file is never re-resolved through
the dyld cache; and outside the dyld case the result does not depend on
the dyld lookup at all. -/
theorem dyld_cache_fallback {β γ : Type} (pathComponents : List String)
    (binaryRes dyldRes : Except WholesymError β) (libraryInfo : β → γ) :
    (∀ b, binaryRes = .ok b →
      library_info_for_binary_at_path pathComponents binaryRes dyldRes libraryInfo =
        .ok (libraryInfo b)) ∧
    (binaryRes = .error .helperErrorDuringOpenFile →
      mightBeInDyldSharedCache pathComponents = true →
      library_info_for_binary_at_path pathComponents binaryRes dyldRes libraryInfo =
        (match dyldRes with
         | .ok b => .ok (libraryInfo b)
         | .error e => .error e)) ∧
    (∀ e, binaryRes = .error e →
      (e ≠ .helperErrorDuringOpenFile ∨ mightBeInDyldSharedCache pathComponents = false) →
      library_info_for_binary_at_path pathComponents binaryRes dyldRes libraryInfo =
        .error e) ∧
    (∀ dyldRes2, (binaryRes ≠ .error .helperErrorDuringOpenFile ∨
        mightBeInDyldSharedCache pathComponents = false) →
      library_info_for_binary_at_path pathComponents binaryRes dyldRes libraryInfo =
        library_info_for_binary_at_path pathComponents binaryRes dyldRes2 libraryInfo) := by
  refine ⟨fun b hb => ?_, fun hb hmight => ?_, fun e he hcond => ?_, fun dyldRes2 hcond => ?_⟩
  · rw [hb]
    rfl
  · rw [hb]
    unfold library_info_for_binary_at_path
    rw [hmight]
    simp
  · rw [he]
    rcases hcond with hne | hmight
    · cases e with
      | helperErrorDuringOpenFile => exact absurd rfl hne
      | otherError code => rfl
    · cases e with
      | helperErrorDuringOpenFile =>
        unfold library_info_for_binary_at_path
        rw [hmight]
        simp
      | otherError code => rfl
  · cases binaryRes with
    | ok b => rfl
    | error e =>
      cases e with
      | helperErrorDuringOpenFile =>
        rcases hcond with hne | hmight
        · exact absurd rfl hne
        · unfold library_info_for_binary_at_path
          rw [hmight]
          simp
      | otherError code => rfl

theorem dyld_cache_fallback_witness :
    library_info_for_binary_at_path ["/", "usr", "lib", "libc.dylib"]
      (Except.error WholesymError.helperErrorDuringOpenFile) (Except.ok 7) (fun b => b + 1) =
      Except.ok 8 :=
  (dyld_cache_fallback ["/", "usr", "lib", "libc.dylib"]
    (Except.error WholesymError.helperErrorDuringOpenFile) (Except.ok 7) (fun b => b + 1)).2.1
    rfl (by decide)

/-- The error type of the ETW property parser
(src/etw-reader/src/parser.rs). -/
inductive ParserError where
  | invalidType
  | parseError
  | lengthMismatch
  | propertyError (message : List Char)
  | utf8Error
  | sliceError
  | tdhNativeError

/-- The default `TryParse::parse` method from src/etw-reader/src/parser.rs:
`self.try_parse(name).unwrap()`. The `try_parse` call is abstracted to its
result; the panic of `unwrap` on an `Err` is modelled as `none`, a
returned value as `some`. -/
def parse {T : Type} (tryParseResult : Except ParserError T) : Option T :=
  match tryParseResult with
  | .ok value => some value
  | .error _ => none

/-- C9: `parse` returns the parsed value exactly when `try_parse` returns
`Ok`, and panics (modelled as `none`) exactly when `try_parse` returns any
`ParserError`; it never converts a failure into a default value. -/
theorem parse_unwraps_try_parse {T : Type} (tryParseResult : Except ParserError T) :
    (∀ v, parse tryParseResult = some v ↔ tryParseResult = .ok v) ∧
    (parse tryParseResult = none ↔ ∃ e, tryParseResult = .error e) := by
  cases tryParseResult with
  | ok v => simp [parse]
  | error e => simp [parse]

end Samply

namespace Samply

/-- One entry of a process's synthesized JIT symbol table
(`fxprof_processed_profile::Symbol`, as pushed in
src/samply/src/windows/coreclr.rs). Addresses are modelled as `Nat`:
overflowing the `u32` counter aborts the profiler, so defined behavior
never wraps. -/
structure CoreClrSymbol where
  address : Nat
  size : Nat
  name : List Char
deriving DecidableEq

/-- The per-process JIT state used by `handle_coreclr_event`: the dense
allocation counter and the pushed symbols. -/
structure ProcessJitInfo where
  nextRelativeAddress : Nat
  symbols : List CoreClrSymbol
deriving DecidableEq

/-- A CoreCLR `MethodLoadVerbose` event, abstracted to the fields that
drive the address allocation. -/
structure MethodLoadEvent where
  methodSize : Nat
  methodName : List Char
deriving DecidableEq

/-- The `MethodLoadVerbose` arm of `handle_coreclr_event`
(src/samply/src/windows/coreclr.rs): assign the current
`next_relative_address`, bump it by the method size, and push the symbol. -/
def handleMethodLoadVerbose (st : ProcessJitInfo) (e : MethodLoadEvent) : ProcessJitInfo :=
  let relativeAddress := st.nextRelativeAddress
  { nextRelativeAddress := st.nextRelativeAddress + e.methodSize
    symbols := st.symbols ++
      [{ address := relativeAddress, size := e.methodSize, name := e.methodName }] }

/-- Handle a sequence of `MethodLoadVerbose` events for one process. -/
def runMethodLoads (st : ProcessJitInfo) (events : List MethodLoadEvent) : ProcessJitInfo :=
  events.foldl handleMethodLoadVerbose st

/-- The symbols generated by a sequence of method loads starting at a given
allocation counter. -/
def genSymbols (base : Nat) : List MethodLoadEvent → List CoreClrSymbol
  | [] => []
  | e :: es =>
    { address := base, size := e.methodSize, name := e.methodName } ::
      genSymbols (base + e.methodSize) es

theorem runMethodLoads_eq (events : List MethodLoadEvent) :
    ∀ st : ProcessJitInfo,
      runMethodLoads st events =
        { nextRelativeAddress :=
            st.nextRelativeAddress + (events.map MethodLoadEvent.methodSize).sum
          symbols := st.symbols ++ genSymbols st.nextRelativeAddress events } := by
  induction events with
  | nil => intro st; cases st; simp [runMethodLoads, genSymbols]
  | cons e es ih =>
    intro st
    show runMethodLoads (handleMethodLoadVerbose st e) es = _
    rw [ih]
    simp [handleMethodLoadVerbose, genSymbols, Nat.add_assoc]

theorem runMethodLoads_append (st : ProcessJitInfo) (l1 l2 : List MethodLoadEvent) :
    runMethodLoads st (l1 ++ l2) = runMethodLoads (runMethodLoads st l1) l2 :=
  List.foldl_append ..

theorem genSymbols_addr_ge (events : List MethodLoadEvent) :
    ∀ base : Nat, ∀ s ∈ genSymbols base events, base ≤ s.address := by
  induction events with
  | nil => intro base s hs; simp [genSymbols] at hs
  | cons e es ih =>
    intro base s hs
    rcases List.mem_cons.mp hs with rfl | hs
    · exact Nat.le_refl _
    · exact le_trans (Nat.le_add_right base e.methodSize) (ih (base + e.methodSize) s hs)

theorem genSymbols_pairwise_le (events : List MethodLoadEvent) :
    ∀ base : Nat, ((genSymbols base events).map CoreClrSymbol.address).Pairwise (· ≤ ·) := by
  induction events with
  | nil => intro base; simp [genSymbols]
  | cons e es ih =>
    intro base
    rw [genSymbols, List.map_cons, List.pairwise_cons]
    refine ⟨fun a ha => ?_, ih (base + e.methodSize)⟩
    rcases List.mem_map.mp ha with ⟨s, hs, rfl⟩
    exact le_trans (Nat.le_add_right base e.methodSize)
      (genSymbols_addr_ge es (base + e.methodSize) s hs)

theorem genSymbols_pairwise_lt (events : List MethodLoadEvent)
    (h : ∀ e ∈ events, 0 < e.methodSize) :
    ∀ base : Nat, ((genSymbols base events).map CoreClrSymbol.address).Pairwise (· < ·) := by
  induction events with
  | nil => intro base; simp [genSymbols]
  | cons e es ih =>
    intro base
    rw [genSymbols, List.map_cons, List.pairwise_cons]
    refine ⟨fun a ha => ?_, ih (fun x hx => h x (List.mem_cons_of_mem e hx)) (base + e.methodSize)⟩
    rcases List.mem_map.mp ha with ⟨s, hs, rfl⟩
    have hpos : 0 < e.methodSize := h e (List.mem_cons_self e es)
    exact lt_of_lt_of_le (Nat.lt_add_of_pos_right hpos)
      (genSymbols_addr_ge es (base + e.methodSize) s hs)

/-- C8: handling a sequence of CoreCLR `MethodLoadVerbose` events for one
process assigns each method the current `next_relative_address` and bumps
the counter by the method size; the counter is monotonically non-decreasing
along the sequence, the symbols vector is ordered by RVA in push order, and
the assigned RVAs are strictly increasing (hence pairwise distinct)
whenever every method size is positive. -/
theorem coreclr_jit_address_allocation (base : Nat) (events : List MethodLoadEvent) :
    (∀ e, (runMethodLoads ⟨base, []⟩ (events ++ [e])).symbols =
        (runMethodLoads ⟨base, []⟩ events).symbols ++
          [{ address := (runMethodLoads ⟨base, []⟩ events).nextRelativeAddress,
             size := e.methodSize, name := e.methodName }] ∧
      (runMethodLoads ⟨base, []⟩ (events ++ [e])).nextRelativeAddress =
        (runMethodLoads ⟨base, []⟩ events).nextRelativeAddress + e.methodSize) ∧
    (∀ pre suf, events = pre ++ suf →
      (runMethodLoads ⟨base, []⟩ pre).nextRelativeAddress ≤
        (runMethodLoads ⟨base, []⟩ events).nextRelativeAddress) ∧
    ((runMethodLoads ⟨base, []⟩ events).symbols.map CoreClrSymbol.address).Pairwise (· ≤ ·) ∧
    ((∀ e ∈ events, 0 < e.methodSize) →
      ((runMethodLoads ⟨base, []⟩ events).symbols.map CoreClrSymbol.address).Pairwise (· < ·)) := by
  refine ⟨fun e => ⟨?_, ?_⟩, fun pre suf hsplit => ?_, ?_, fun hpos => ?_⟩
  · rw [runMethodLoads_append]
    rfl
  · rw [runMethodLoads_append]
    rfl
  · rw [hsplit, runMethodLoads_eq pre, runMethodLoads_eq (pre ++ suf)]
    simp
  · rw [runMethodLoads_eq]
    simpa using genSymbols_pairwise_le events base
  · rw [runMethodLoads_eq]
    simpa using genSymbols_pairwise_lt events hpos base

theorem coreclr_jit_address_allocation_witness :
    ((runMethodLoads ⟨0, []⟩ [⟨4, ['a']⟩, ⟨2, ['b']⟩, ⟨3, ['c']⟩]).symbols.map
      CoreClrSymbol.address).Pairwise (· < ·) :=
  (coreclr_jit_address_allocation 0 [⟨4, ['a']⟩, ⟨2, ['b']⟩, ⟨3, ['c']⟩]).2.2.2 (by decide)

end Samply

namespace Samply

/-- `bytes.iter().position(|b| *b == b'=')` from `split_at_first_equals`
(src/samply/src/main.rs), on an item modelled as its character list. -/
def firstEqualsPos : List Char → Option Nat
  | [] => none
  | c :: rest => if c = '=' then some 0 else (firstEqualsPos rest).map (· + 1)

/-- `split_at_first_equals` from src/samply/src/main.rs: `None` when the
item has no `'='`, otherwise the characters before the first `'='` and the
characters after it. -/
def split_at_first_equals (s : List Char) : Option (List Char × List Char) :=
  match firstEqualsPos s with
  | none => none
  | some pos => some (s.take pos, s.drop (pos + 1))

/-- The result of `RecordArgs::process_launch_props`
(src/samply/src/main.rs), restricted to the fields computed from the
command items. -/
structure ProcessLaunchProps where
  envVars : List (List Char × List Char)
  commandName : List Char
  args : List (List Char)
deriving DecidableEq

/-- `RecordArgs::process_launch_props` (src/samply/src/main.rs): consume
leading items that split at an `'='` as environment variables; the first
item that does not split becomes the command name and the remaining items
its arguments; when every item splits (`i == command.len()`) the process
prints an error and exits, modelled as `none`. -/
def process_launch_props : List (List Char) → Option ProcessLaunchProps
  | [] => none
  | item :: rest =>
    match split_at_first_equals item with
    | some (varName, varVal) =>
      match process_launch_props rest with
      | some props => some ⟨(varName, varVal) :: props.envVars, props.commandName, props.args⟩
      | none => none
    | none => some ⟨[], item, rest⟩

/-- Claim-side split of an assignment item at its first `'='`: name is the
longest `'='`-free prefix, value is everything after the first `'='`. -/
def claimSplit (s : List Char) : List Char × List Char :=
  (s.takeWhile (fun c => c != '='), (s.dropWhile (fun c => c != '=')).drop 1)

theorem split_at_first_equals_eq (s : List Char) :
    split_at_first_equals s =
      if s.contains '=' then some (claimSplit s) else none := by
  induction s with
  | nil => rfl
  | cons c cs ih =>
    by_cases hc : c = '='
    · subst hc
      simp [split_at_first_equals, firstEqualsPos, claimSplit]
    · unfold split_at_first_equals firstEqualsPos
      rw [if_neg hc]
      cases hf : firstEqualsPos cs with
      | none =>
        have hns : split_at_first_equals cs = none := by
          unfold split_at_first_equals
          rw [hf]
        rw [ih] at hns
        by_cases hcs : cs.contains '='
        · rw [if_pos hcs] at hns
          exact absurd hns (by simp)
        · have hb1 : ('=' == c) = false := beq_eq_false_iff_ne.mpr (fun x => hc x.symm)
          have hb2 : cs.contains '=' = false := Bool.eq_false_iff.mpr hcs
          rw [List.contains_cons, hb1, hb2]
          simp
      | some i =>
        have hss : split_at_first_equals cs = some (cs.take i, cs.drop (i + 1)) := by
          unfold split_at_first_equals
          rw [hf]
        rw [ih] at hss
        by_cases hcs : cs.contains '='
        · rw [if_pos hcs] at hss
          have hpair : claimSplit cs = (cs.take i, cs.drop (i + 1)) :=
            Option.some_inj.mp hss
          unfold claimSplit at hpair
          rw [Prod.mk.injEq] at hpair
          have hcontains : (c :: cs).contains '=' = true := by
            rw [List.contains_cons, hcs, Bool.or_true]
          rw [if_pos hcontains]
          show some ((c :: cs).take (i + 1), (c :: cs).drop (i + 1 + 1)) =
            some (claimSplit (c :: cs))
          unfold claimSplit
          have hbne : (c != '=') = true := by simp [hc]
          rw [List.takeWhile_cons, List.dropWhile_cons, if_pos hbne, if_pos hbne,
            hpair.1, hpair.2]
          rfl
        · rw [if_neg hcs] at hss
          exact absurd hss (by simp)

/-- C10: `process_launch_props` consumes the maximal leading run of command
items containing an `'='` as environment assignments (each split at its
first `'='`), makes the first `'='`-free item the command name with the
remaining items as arguments, and errors out (modelled as `none`) when
every item contains an `'='`. -/
theorem record_env_var_split (command : List (List Char)) :
    process_launch_props command =
      match command.dropWhile (fun s => s.contains '=') with
      | [] => none
      | commandName :: args =>
        some ⟨(command.takeWhile (fun s => s.contains '=')).map claimSplit,
          commandName, args⟩ := by
  induction command with
  | nil => rfl
  | cons item rest ih =>
    by_cases hc : item.contains '='
    · rw [List.dropWhile_cons, List.takeWhile_cons]
      rw [hc]
      simp only [if_true]
      unfold process_launch_props
      rw [split_at_first_equals_eq, if_pos hc]
      rw [ih]
      cases rest.dropWhile (fun s => s.contains '=') with
      | nil => rfl
      | cons n a => rfl
    · rw [List.dropWhile_cons, List.takeWhile_cons]
      have hb : (item.contains '=') = false := by simpa using hc
      rw [hb]
      simp only [Bool.false_eq_true, if_false]
      unfold process_launch_props
      rw [split_at_first_equals_eq, if_neg hc]
      rfl

end Samply
